import Mathlib

/-!
Verification of the UltimateStream Stremio addon core against its
natural-language specification.  The JavaScript source is shallowly
embedded: JS strings become `List Char`, JS numbers become `Nat`, `Int`
or `ℚ` depending on use, `Map`s become association lists, fallible async
calls become `Except`-valued functions, and the event-loop side effects
of `CacheManager` (entries, `setTimeout` handles) become an explicit
state record transformed by pure operations.
-/

namespace UltimateStream

/-- JS strings, embedded as lists of characters (all inputs of interest
here are ASCII). -/
abbrev Str := List Char

/-! ## CacheManager (src/utils/CacheManager.js)

`this.cache` is a `Map` from key to `{ value, expires }`; `this.timers`
is a `Map` from key to the `setTimeout` handle currently pending for
that key.  We additionally track the multiset of live (not yet cleared,
not yet fired) timeout objects in `live`, each with a unique handle, its
key and its fire time, so that cancellation of timers is observable.
All times are in milliseconds, as with `Date.now()`. -/

structure JsCacheEntry (V : Type) where
  value : V
  expires : Nat
deriving DecidableEq, Repr

structure CacheManager (V : Type) where
  cache : List (Str × JsCacheEntry V)
  timers : List (Str × Nat)
  live : List (Nat × Str × Nat)
  nextHandle : Nat
deriving DecidableEq, Repr

namespace CacheManager

def empty (V : Type) : CacheManager V := ⟨[], [], [], 0⟩

/-- Association-list lookup (`Map.get`). -/
def lookupKey {A : Type} (l : List (Str × A)) (k : Str) : Option A :=
  match l.find? (fun p => p.1 == k) with
  | some p => some p.2
  | none => none

/-- `Map.delete k` / `Map.set k` helper: drop all bindings of `k`. -/
def removeKey {A : Type} (l : List (Str × A)) (k : Str) : List (Str × A) :=
  l.filter (fun p => p.1 != k)

/-- `clearTimeout(handle)`: the timeout object with this handle is no
longer live.  Clearing an unknown handle is a no-op, as in JS. -/
def clearTimeout {V : Type} (s : CacheManager V) (h : Nat) : CacheManager V :=
  { s with live := s.live.filter (fun t => t.1 != h) }

/-- `CacheManager.delete(key)`. -/
def delete {V : Type} (s : CacheManager V) (k : Str) : CacheManager V :=
  let s1 := { s with cache := removeKey s.cache k }
  match lookupKey s1.timers k with
  | some h =>
      let s2 := clearTimeout s1 h
      { s2 with timers := removeKey s2.timers k }
  | none => s1

/-- `CacheManager.set(key, value, ttl)` executed when `Date.now() = now`
(milliseconds); `ttl` is in seconds.  Clears any pending timer for the
key, stores `{ value, expires: now + ttl*1000 }`, and schedules a fresh
expiry timeout firing at `now + ttl*1000`. -/
def set {V : Type} (s : CacheManager V) (now : Nat) (k : Str) (v : V)
    (ttl : Nat) : CacheManager V :=
  let expires := now + ttl * 1000
  let s1 :=
    match lookupKey s.timers k with
    | some h => clearTimeout s h
    | none => s
  let s2 := { s1 with cache := (k, ⟨v, expires⟩) :: removeKey s1.cache k }
  let h := s2.nextHandle
  { s2 with
    live := (h, k, expires) :: s2.live,
    timers := (k, h) :: removeKey s2.timers k,
    nextHandle := h + 1 }

/-- `CacheManager.get(key)` executed when `Date.now() = t`.  Returns the
value (or `none`) together with the updated state (an expired entry is
deleted on read). -/
def get {V : Type} (s : CacheManager V) (t : Nat) (k : Str) :
    Option V × CacheManager V :=
  match lookupKey s.cache k with
  | none => (none, s)
  | some e =>
      if t > e.expires then (none, s.delete k)
      else (some e.value, s)

/-- `CacheManager.cleanup()` executed when `Date.now() = t`: deletes
every entry whose expiry is strictly in the past. -/
def cleanup {V : Type} (s : CacheManager V) (t : Nat) : CacheManager V :=
  let expiredKeys := (s.cache.filter (fun p => t > p.2.expires)).map (·.1)
  expiredKeys.foldl (fun acc k => acc.delete k) s

/-- A live timeout firing: the runtime removes it from the live set and
runs its callback `this.delete(key)`.  A handle that is not live (it was
cleared) can never fire. -/
def fire {V : Type} (s : CacheManager V) (h : Nat) : CacheManager V :=
  match s.live.find? (fun t => t.1 == h) with
  | some (_, k, _) => (clearTimeout s h).delete k
  | none => s

end CacheManager

/-- Events that touch a `CacheManager` during a run: the public API
calls (`set`/`get`/`delete`), the periodic `cleanup` sweep, and a
scheduled timeout firing. -/
inductive CacheOp (V : Type) where
  | set (now : Nat) (k : Str) (v : V) (ttl : Nat)
  | get (t : Nat) (k : Str)
  | del (k : Str)
  | cleanup (t : Nat)
  | fire (h : Nat)
deriving DecidableEq

namespace CacheOp

def apply {V : Type} (s : CacheManager V) : CacheOp V → CacheManager V
  | .set now k v ttl => s.set now k v ttl
  | .get t k => (s.get t k).2
  | .del k => s.delete k
  | .cleanup t => s.cleanup t
  | .fire h => s.fire h

/-- State reached from a fresh `CacheManager` after a sequence of events. -/
def run {V : Type} (ops : List (CacheOp V)) : CacheManager V :=
  ops.foldl CacheOp.apply (CacheManager.empty V)

end CacheOp

/-- Well-formedness of the cache state: every live timeout is the one
currently registered in `timers` for its key, timeout handles are
pairwise distinct, and all issued handles are below `nextHandle`. -/
def CacheManager.wf {V : Type} (s : CacheManager V) : Prop :=
  (∀ e ∈ s.live, CacheManager.lookupKey s.timers e.2.1 = some e.1) ∧
  (s.live.map (·.1)).Nodup ∧
  (∀ e ∈ s.live, e.1 < s.nextHandle) ∧
  (∀ p ∈ s.timers, p.2 < s.nextHandle)

/-! ## Content records and helpers (BaseScraper.createMeta shape)

JS truthiness for the field types that occur: a string is truthy iff
non-empty, a number iff non-zero, `null`/`undefined` are falsy.
`imdbRating` is a JS number (embedded as `ℚ`) or `null`; in relational
comparisons `null` coerces to 0, as in JS. -/

structure MetaRecord where
  id : Str
  type : Str
  name : Option Str
  title : Option Str
  poster : Option Str
  year : Option Nat
  imdbRating : Option ℚ
  description : Option Str
  source : Option Str
deriving DecidableEq, Repr

def truthyStr : Option Str → Bool
  | none => false
  | some s => !s.isEmpty

def truthyNum : Option ℚ → Bool
  | none => false
  | some q => q != 0

def truthyNat : Option Nat → Bool
  | none => false
  | some n => n != 0

/-- Value a nullable JS number takes inside a relational operator
(`null` coerces to `0`). -/
def ratingVal (a : Option ℚ) : ℚ := a.getD 0

/-- `result.imdbRating > existing.imdbRating` with JS coercions. -/
def jsRatingGT (a b : Option ℚ) : Bool := ratingVal a > ratingVal b

def jsToLowerCase (s : Str) : Str := s.map Char.toLower

def natToStr (n : Nat) : Str := (Nat.repr n).data

/-! ## ScraperManager.normalizeTitle (part_003 lines 260-268)

The source's first regex is written `/[^a-z0-9\\s]/g`: the doubled
backslash makes the class keep lowercase letters, digits and a literal
backslash (whitespace is removed, not kept).  The second regex
`/\\s+/g` then matches a literal backslash followed by one or more
letters `s` and replaces each match with a single space. -/

def keptByClassRegex (c : Char) : Bool :=
  ('a' ≤ c && c ≤ 'z') || ('0' ≤ c && c ≤ '9') || c == '\\'

def collapseAux : Nat → Str → Str
  | 0, _ => []
  | _ + 1, [] => []
  | fuel + 1, '\\' :: rest =>
      match rest with
      | 's' :: rest2 => ' ' :: collapseAux fuel (rest2.dropWhile (· = 's'))
      | _ => '\\' :: collapseAux fuel rest
  | fuel + 1, c :: rest => c :: collapseAux fuel rest

/-- Global replace of `/\\s+/g` (a literal backslash followed by a run
of `s`) with a single space.  Structured with a fuel argument so that
the recursion is structural; every step consumes at least one character,
so `s.length` fuel always suffices. -/
def collapseBackslashS (s : Str) : Str := collapseAux s.length s

def isJsSpace (c : Char) : Bool :=
  c == ' ' || c == '\t' || c == '\n' || c == '\r' || c == '\x0b' || c == '\x0c'

def jsTrim (s : Str) : Str :=
  ((s.dropWhile isJsSpace).reverse.dropWhile isJsSpace).reverse

def normalizeTitle (title : Option Str) : Str :=
  if !truthyStr title then []
  else
    jsTrim (collapseBackslashS ((jsToLowerCase (title.getD [])).filter keptByClassRegex))

/-! ## ScraperManager.deduplicateResults (part_003 lines 219-253) -/

/-- `result.name || result.title`. -/
def nameOrTitle (r : MetaRecord) : Option Str :=
  if truthyStr r.name then r.name else r.title

/-- `${result.year || 'unknown'}` as it appears inside the key template. -/
def yearKeyStr (y : Option Nat) : Str :=
  match y with
  | some n => if n != 0 then natToStr n else "unknown".data
  | none => "unknown".data

/-- The collision key `${normalizedTitle}:${result.year || 'unknown'}:${result.type}`. -/
def dedupKey (r : MetaRecord) : Str :=
  normalizeTitle (nameOrTitle r) ++ ':' :: yearKeyStr r.year ++ ':' :: r.type

/-- The replacement test applied to a colliding (incumbent, challenger)
pair: poster presence, rating presence, numerically higher rating,
longer description — a disjunction, evaluated left to right. -/
def shouldReplace (existing result : MetaRecord) : Bool :=
  (!truthyStr existing.poster && truthyStr result.poster) ||
  (!truthyNum existing.imdbRating && truthyNum result.imdbRating) ||
  jsRatingGT result.imdbRating existing.imdbRating ||
  (truthyStr result.description &&
    decide ((result.description.getD []).length > (existing.description.getD []).length))

/-- One iteration of the `for (const result of results)` loop, carrying
the `seen` key set and the `deduplicated` array. -/
def dedupStep (st : List Str × List MetaRecord) (r : MetaRecord) :
    List Str × List MetaRecord :=
  let seen := st.1
  let ded := st.2
  let k := dedupKey r
  if seen.contains k then
    match ded.findIdx? (fun item => dedupKey item == k) with
    | some i =>
        match ded[i]? with
        | some existing => (seen, if shouldReplace existing r then ded.set i r else ded)
        | none => (seen, ded)
    | none => (seen, ded)
  else (k :: seen, ded ++ [r])

def deduplicateResults (results : List MetaRecord) : List MetaRecord :=
  (results.foldl dedupStep ([], [])).2

/-! ## ScraperManager fan-out (part_003 lines 53-135)

An adapter is a record of its name, enabled flag, and its `search` /
`getPopular` operations; a throwing JS call is an `Except.error`.  The
manager's `try { ... } catch { return [] }` around each adapter call is
the match on that `Except`. -/

structure Scraper where
  name : Str
  enabled : Bool
  search : Str → Str → Except Unit (List MetaRecord)
  getPopular : Str → Option Str → Except Unit (List MetaRecord)

def getEnabledScrapers (scrapers : List Scraper) : List Scraper :=
  scrapers.filter (·.enabled)

/-- `results.map(result => ({...result, source: scraper.name}))`. -/
def withSource (nm : Str) (rs : List MetaRecord) : List MetaRecord :=
  rs.map (fun r => { r with source := some nm })

def searchContribution (q ty : Str) (s : Scraper) : List MetaRecord :=
  match s.search q ty with
  | .ok rs => withSource s.name rs
  | .error _ => []

def managerSearch (scrapers : List Scraper) (q ty : Str) : List MetaRecord :=
  deduplicateResults
    (((getEnabledScrapers scrapers).map (searchContribution q ty)).flatten)

def popularContribution (ty : Str) (g : Option Str) (s : Scraper) : List MetaRecord :=
  match s.getPopular ty g with
  | .ok rs => withSource s.name rs
  | .error _ => []

/-- The `getPopular` sort comparator (part_003 lines 122-131): rating
descending when both records have truthy ratings, else year descending
when both have truthy years, else 0. -/
def popularCmp (a b : MetaRecord) : ℚ :=
  if truthyNum a.imdbRating && truthyNum b.imdbRating then
    ratingVal b.imdbRating - ratingVal a.imdbRating
  else if truthyNat a.year && truthyNat b.year then
    ((b.year.getD 0 : Nat) : ℚ) - ((a.year.getD 0 : Nat) : ℚ)
  else 0

/-- Stable comparison sort, modelling `Array.prototype.sort(cmp)`:
ECMAScript mandates a stable sort, and for a consistent comparator the
stable sorted order is unique, so any stable insertion into sorted
position is a faithful model; elements comparing `≤ 0` to the head of
the sorted suffix stay in front of it. -/
def insertLe {α : Type} (le : α → α → Bool) (x : α) : List α → List α
  | [] => [x]
  | y :: ys => if le x y then x :: y :: ys else y :: insertLe le x ys

def jsSort {α : Type} (le : α → α → Bool) : List α → List α
  | [] => []
  | x :: xs => insertLe le x (jsSort le xs)

def rankPopular (l : List MetaRecord) : List MetaRecord :=
  jsSort (fun a b => decide (popularCmp a b ≤ 0)) l

def managerGetPopular (scrapers : List Scraper) (ty : Str) (g : Option Str) :
    List MetaRecord :=
  rankPopular
    (deduplicateResults
      (((getEnabledScrapers scrapers).map (popularContribution ty g)).flatten))

/-! ## TorrentManager (part_003 lines 309-391) -/

structure TorrentStream where
  title : Str
  url : Str
  quality : Option Str
  seeders : Nat
  leechers : Nat
deriving DecidableEq, Repr

/-- The object literal `{ '2160p': 4, '1080p': 3, '720p': 2, '480p': 1 }`. -/
def qualityOrderTable : List (Str × Nat) :=
  [("2160p".data, 4), ("1080p".data, 3), ("720p".data, 2), ("480p".data, 1)]

/-- `qualityOrder[x.quality] || 0`: property lookup on the table, any
missing key (including `null` quality) yields 0. -/
def qualityOrd (q : Option Str) : Nat :=
  match q with
  | none => 0
  | some s =>
      match qualityOrderTable.find? (fun p => p.1 == s) with
      | some p => p.2
      | none => 0

/-- The `getStreams` sort comparator (part_003 lines 377-387): seeders
descending when both seeder counts are truthy (non-zero), otherwise
quality-table ordinal descending. -/
def torrentCmp (a b : TorrentStream) : Int :=
  if a.seeders != 0 && b.seeders != 0 then
    (b.seeders : Int) - (a.seeders : Int)
  else
    (qualityOrd b.quality : Int) - (qualityOrd a.quality : Int)

/-- Tail of `TorrentManager.getStreams` (part_003 lines 377-391): sort
the combined candidates with `torrentCmp`, then `slice(0, 10)`. -/
def rankAndCap (allStreams : List TorrentStream) : List TorrentStream :=
  (jsSort (fun a b => decide (torrentCmp a b ≤ 0)) allStreams).take 10

/-! ## Content ids: PstreamScraper.generateId / getUrlFromId
(part_002 lines 443-454) and ScraperManager.getScraperFromId
(part_003 lines 201-212)

`Buffer.from(url).toString('base64')` over ASCII text is standard
base64 of the character codes; `.slice(0, 16)` truncates the digits. -/

def b64Alphabet : Str :=
  "ABCDEFGHIJKLMNOPQRSTUVWXYZabcdefghijklmnopqrstuvwxyz0123456789+/".data

def b64Char (n : Nat) : Char := b64Alphabet.getD n '?'

def b64Encode : List Nat → Str
  | [] => []
  | [b1] => [b64Char (b1 / 4), b64Char (b1 % 4 * 16), '=', '=']
  | [b1, b2] =>
      [b64Char (b1 / 4), b64Char (b1 % 4 * 16 + b2 / 16), b64Char (b2 % 16 * 4), '=']
  | b1 :: b2 :: b3 :: rest =>
      b64Char (b1 / 4) :: b64Char (b1 % 4 * 16 + b2 / 16) ::
      b64Char (b2 % 16 * 4 + b3 / 64) :: b64Char (b3 % 64) :: b64Encode rest

def b64Val (c : Char) : Option Nat := b64Alphabet.findIdx? (· == c)

/-- Byte reconstruction from a stream of 6-bit digits: full groups of 4
digits give 3 bytes, a trailing group of 2 or 3 digits gives 1 or 2
bytes, a trailing single digit is dropped — as `Buffer.from(·,'base64')`
does. -/
def b64DigitsToBytes : List Nat → List Nat
  | v1 :: v2 :: v3 :: v4 :: rest =>
      (v1 * 4 + v2 / 16) :: (v2 % 16 * 16 + v3 / 4) :: (v3 % 4 * 64 + v4) ::
        b64DigitsToBytes rest
  | [v1, v2] => [v1 * 4 + v2 / 16]
  | [v1, v2, v3] => [v1 * 4 + v2 / 16, v2 % 16 * 16 + v3 / 4]
  | _ => []

/-- `Buffer.from(s, 'base64')`: characters outside the base64 alphabet
(including the `=` padding) contribute nothing, the remaining 6-bit
digits are regrouped into bytes. -/
def b64Decode (s : Str) : List Nat := b64DigitsToBytes (s.filterMap b64Val)

def strToBytes (s : Str) : List Nat := s.map Char.toNat

def bytesToStr (bs : List Nat) : Str := bs.map Char.ofNat

def pstreamName : Str := "Pstream".data

/-- `generateId(url)` of a scraper named `name`:
`scraped:<name.toLowerCase()>:<base64(url).slice(0,16)>`. -/
def generateId (name : Str) (url : Str) : Str :=
  "scraped:".data ++ jsToLowerCase name ++ ':' :: (b64Encode (strToBytes url)).take 16

/-- `String.prototype.split(sep)` for a single-character separator. -/
def splitOnSep (sep : Char) : Str → List Str
  | [] => [[]]
  | c :: rest =>
      let r := splitOnSep sep rest
      if c = sep then [] :: r
      else
        match r with
        | [] => [[c]]
        | h :: t => (c :: h) :: t

/-- `getUrlFromId(id)`: decode `id.split(':')[2]` as base64; any
failure (missing part, invalid digits) is caught and becomes `null`. -/
def getUrlFromId (id : Str) : Option Str :=
  match (splitOnSep ':' id)[2]? with
  | none => none
  | some b64Part => some (bytesToStr (b64Decode b64Part))

/-- `ScraperManager.getScraperFromId(id)`: require the `scraped:` format
and look the second segment up among the registered scrapers by
lowercased name. -/
def getScraperFromId (scrapers : List Scraper) (id : Str) : Option Scraper :=
  let parts := splitOnSep ':' id
  if parts.length < 2 || !(parts[0]? == some "scraped".data) then none
  else
    match parts[1]? with
    | some p1 =>
        scrapers.find? (fun s => jsToLowerCase s.name == jsToLowerCase p1)
    | none => none

/-! ## The outward handlers (part_004 lines 523-633, part_005 lines 38-63)

Each handler is embedded as a pure function of the cache-lookup outcome
and of the lists the two managers would return for this request; the
outcome records what was queried and what was written back to the
cache (value and TTL in seconds). -/

structure StreamHandlerOutcome (α : Type) where
  streams : List α
  scrapersQueried : Bool
  torrentsQueried : Bool
  cacheWrite : Option (List α × Nat)
deriving DecidableEq, Repr

/-- `builder.defineStreamHandler` (part_004 lines 593-633). -/
def defineStreamHandler {α : Type} (cached : Option (List α))
    (direct torrent : List α) : StreamHandlerOutcome α :=
  match cached with
  | some c => ⟨c, false, false, none⟩
  | none =>
      let streams1 : List α := [] ++ direct
      if streams1.length = 0 then
        let streams2 := streams1 ++ torrent
        ⟨streams2, true, true,
          if streams2.length > 0 then some (streams2, 1800) else none⟩
      else
        ⟨streams1, true, false,
          if streams1.length > 0 then some (streams1, 1800) else none⟩

structure ExpressStreamOutcome (α : Type) where
  streams : List α
  scrapersQueried : Bool
  torrentsQueried : Bool
deriving DecidableEq, Repr

/-- The Express route `app.get('/stream/:type/:id.json')`
(part_005 lines 38-63): scrapers and torrents are both always queried
and both contributions concatenated. -/
def expressStreamRoute {α : Type} (scraped torrent : List α) :
    ExpressStreamOutcome α :=
  let s1 : List α := []
  let s2 := if scraped.length > 0 then s1 ++ scraped else s1
  let s3 := if torrent.length > 0 then s2 ++ torrent else s2
  ⟨s3, true, true⟩

structure CatalogOutcome where
  metas : List MetaRecord
  scrapersQueried : Bool
  cacheWrite : Option (List MetaRecord × Nat)
deriving DecidableEq, Repr

/-- `builder.defineCatalogHandler` (part_004 lines 523-558): on a miss
the full merged list is cached for 3600 s and the response is
`metas.slice(0, 100)`; on a hit the stored list is returned unsliced. -/
def defineCatalogHandler (cached : Option (List MetaRecord))
    (fetched : List MetaRecord) : CatalogOutcome :=
  match cached with
  | some c => ⟨c, false, none⟩
  | none => ⟨fetched.take 100, true, some (fetched, 3600)⟩

/-! ## Stream objects (BaseScraper.createStream shape) and concrete
sample data used to instantiate the claims on explicit inputs. -/

structure StreamRecord where
  url : Str
  title : Str
  quality : Option Str
  qualityNote : Option Str
  language : Option Str
  source : Option Str
  server : Option Str
  size : Option Str
deriving DecidableEq, Repr

def emptyMeta : MetaRecord :=
  { id := [], type := ("movie".data), name := none, title := none,
    poster := none, year := none, imdbRating := none, description := none,
    source := none }

def sampleStream : StreamRecord :=
  { url := ("https://cdn.example/v.mp4".data), title := ("Pstream - Direct Stream".data),
    quality := some ("1080P".data), qualityNote := none, language := none,
    source := some ("Pstream".data), server := some ("Direct".data), size := none }

/-- Scenario record A of the merge scenario: rating 8.2, poster present. -/
def movieXA : MetaRecord :=
  { emptyMeta with
    id := ("scraped:a:1".data), name := some ("Movie X".data),
    poster := some ("https://a.example/p.jpg".data), year := some 2020,
    imdbRating := some (Rat.mk' 41 5) }

/-- Scenario record B of the merge scenario: no rating, no poster. -/
def movieXB : MetaRecord :=
  { emptyMeta with
    id := ("scraped:b:9".data), name := some ("Movie X".data),
    poster := none, year := some 2020, imdbRating := none }

/-- Two colliding records produced by two different healthy adapters. -/
def recG2 : MetaRecord :=
  { emptyMeta with id := ("scraped:g2:1".data), name := some ("zzz".data), year := some 2011 }

def recG3 : MetaRecord :=
  { emptyMeta with id := ("scraped:g3:1".data), name := some ("zzz".data), year := some 2011 }

/-- Healthy adapter returning `recG2` on every search. -/
def scrG2 : Scraper :=
  { name := ("G2".data), enabled := true,
    search := fun _ _ => .ok [recG2],
    getPopular := fun _ _ => .ok [recG2] }

/-- Healthy adapter returning `recG3` on every search. -/
def scrG3 : Scraper :=
  { name := ("G3".data), enabled := true,
    search := fun _ _ => .ok [recG3],
    getPopular := fun _ _ => .ok [recG3] }

/-- Adapter whose calls always throw. -/
def scrFail : Scraper :=
  { name := ("Bad".data), enabled := true,
    search := fun _ _ => .error (),
    getPopular := fun _ _ => .error () }

/-- Record with no rating and no year. -/
def popNoRating : MetaRecord :=
  { emptyMeta with id := ("scraped:p:1".data), name := some ("aaa".data) }

/-- Record carrying a rating. -/
def popRated : MetaRecord :=
  { emptyMeta with
    id := ("scraped:p:2".data), name := some ("bbb".data),
    imdbRating := some (5 : ℚ) }

/-- Adapter whose popular listing is `[popNoRating, popRated]`. -/
def scrPop : Scraper :=
  { name := ("Pop".data), enabled := true,
    search := fun _ _ => .ok [],
    getPopular := fun _ _ => .ok [popNoRating, popRated] }

def tq (t : String) (q : String) (s : Nat) : TorrentStream :=
  { title := t.data, url := ("magnet:?xt=a".data), quality := some q.data,
    seeders := s, leechers := 0 }

/-- A registered scraper carrying the Pstream name, used to instantiate
the id-routing statements. -/
def pstreamRegistered : Scraper :=
  { name := pstreamName, enabled := true,
    search := fun _ _ => .ok [],
    getPopular := fun _ _ => .ok [] }

/-! ## Theorems -/

namespace CacheManager

theorem lookupKey_cons_self {A : Type} (l : List (Str × A)) (k : Str) (a : A) :
    lookupKey ((k, a) :: l) k = some a := by
  simp [lookupKey, List.find?_cons_of_pos]

theorem set_cache_eq {V : Type} (s : CacheManager V) (now : Nat) (k : Str)
    (v : V) (ttl : Nat) :
    (s.set now k v ttl).cache =
      (k, ⟨v, now + ttl * 1000⟩) :: removeKey s.cache k := by
  unfold set
  cases lookupKey s.timers k <;> rfl

end CacheManager

/-- C2 (amended): after `set(k, v, ttl)` at time `now`, `get(k)` returns
`v` at every query time up to and including `now + ttl` (in ms:
`now + ttl*1000`), and returns `null` at every strictly later query
time, independently of the periodic sweep; expiry on read uses the
strict comparison `Date.now() > entry.expires`, so the boundary instant
itself still returns the value. -/
theorem claimC2_cache_expiry_on_read {V : Type} (s : CacheManager V)
    (now : Nat) (k : Str) (v : V) (ttl t : Nat) :
    ((s.set now k v ttl).get t k).1 =
      if t ≤ now + ttl * 1000 then some v else none := by
  unfold CacheManager.get
  rw [CacheManager.set_cache_eq, CacheManager.lookupKey_cons_self]
  show (if t > now + ttl * 1000 then _ else ((some v, _) : Option V × _)).1 = _
  split_ifs with h1 h2 <;> first | rfl | omega

/-- C2 counterexample: `set("k", 7, ttl = 1s)` at `now = 0`; the query
at exactly `now + ttl` (1000 ms) still returns the value, where the
claim requires absence at or after `now + ttl`. -/
theorem claimC2_counterexample :
    ((((CacheManager.empty Nat).set 0 ("k".data) 7 1).get 1000 ("k".data)).1
        = some 7) ∧
      (0 + 1 * 1000 ≤ 1000) := by
  constructor
  · rfl
  · decide

/-- C2 witness: the amended theorem evaluated at a concrete instant on
each side of the boundary. -/
theorem claimC2_witness :
    ((((CacheManager.empty Nat).set 0 ("k".data) 7 1).get 1000 ("k".data)).1
        = if 1000 ≤ 0 + 1 * 1000 then some 7 else none) ∧
      ((((CacheManager.empty Nat).set 0 ("k".data) 7 1).get 1001 ("k".data)).1
        = if 1001 ≤ 0 + 1 * 1000 then some 7 else none) :=
  ⟨claimC2_cache_expiry_on_read (CacheManager.empty Nat) 0 ("k".data) 7 1 1000,
   claimC2_cache_expiry_on_read (CacheManager.empty Nat) 0 ("k".data) 7 1 1001⟩

/-- C10: on a catalog cache miss the handler responds with at most the
first 100 merged records while caching the full uncapped list (TTL
3600 s); a cache hit responds with the stored list unsliced; hence two
identical requests differ in length as soon as more than 100 records
were merged. -/
theorem claimC10_catalog_slice_vs_cache (fetched stored : List MetaRecord) :
    (defineCatalogHandler none fetched).metas = fetched.take 100 ∧
    (defineCatalogHandler none fetched).cacheWrite = some (fetched, 3600) ∧
    (defineCatalogHandler none fetched).scrapersQueried = true ∧
    (defineCatalogHandler (some stored) fetched) = ⟨stored, false, none⟩ ∧
    (100 < fetched.length →
      ((defineCatalogHandler none fetched).metas).length <
        ((defineCatalogHandler (some fetched) fetched).metas).length) := by
  refine ⟨rfl, rfl, rfl, rfl, fun h => ?_⟩
  simp only [defineCatalogHandler, List.length_take]
  omega

/-- C10 witness: a 101-record merged list is answered with 100 records
on the miss and with all 101 on the following hit. -/
theorem claimC10_witness :
    (100 : Nat) < (List.replicate 101 emptyMeta).length ∧
      ((defineCatalogHandler none (List.replicate 101 emptyMeta)).metas).length <
        ((defineCatalogHandler (some (List.replicate 101 emptyMeta))
            (List.replicate 101 emptyMeta)).metas).length :=
  ⟨by simp,
   (claimC10_catalog_slice_vs_cache (List.replicate 101 emptyMeta)
       (List.replicate 101 emptyMeta)).2.2.2.2 (by simp)⟩

/-- C9 (amended): on a stream cache miss, a non-empty resulting stream
list is written to the cache under the streams TTL of 1800 s before
being returned, and a cache hit is answered from the cache without
querying any adapter; an empty result, however, is returned without
being cached (the write is guarded by `streams.length > 0`). -/
theorem claimC9_stream_cache_write {α : Type} (c direct torrent : List α) :
    (defineStreamHandler (some c) direct torrent =
      ⟨c, false, false, none⟩) ∧
    ((defineStreamHandler none direct torrent).streams ≠ [] →
      (defineStreamHandler none direct torrent).cacheWrite =
        some ((defineStreamHandler none direct torrent).streams, 1800)) ∧
    ((defineStreamHandler none direct torrent).streams = [] →
      (defineStreamHandler none direct torrent).cacheWrite = none) := by
  refine ⟨rfl, ?_, ?_⟩ <;>
    · intro h
      simp only [defineStreamHandler, List.nil_append] at h ⊢
      rcases direct with _ | ⟨d, ds⟩ <;>
        rcases torrent with _ | ⟨t, ts⟩ <;> simp_all

/-- C9 counterexample: a total failure (no direct and no torrent
streams) produces the well-formed empty result, but nothing is written
to the cache, where the claim requires a write with TTL 1800 s. -/
theorem claimC9_counterexample :
    (defineStreamHandler (α := StreamRecord) none [] []).streams = [] ∧
      (defineStreamHandler (α := StreamRecord) none [] []).cacheWrite = none := by
  constructor <;> rfl

/-- C9 witness: the amended theorem applied to a non-empty direct
result and to the empty result. -/
theorem claimC9_witness :
    ((defineStreamHandler none [sampleStream] []).streams ≠ [] →
      (defineStreamHandler none [sampleStream] []).cacheWrite =
        some ((defineStreamHandler none [sampleStream] []).streams, 1800)) ∧
    ((defineStreamHandler (α := StreamRecord) none [] []).streams = [] →
      (defineStreamHandler (α := StreamRecord) none [] []).cacheWrite = none) :=
  ⟨(claimC9_stream_cache_write [] [sampleStream] []).2.1,
   (claimC9_stream_cache_write [] [] []).2.2⟩

/-- C1 (amended): the SDK stream handler falls back as specified — on a
cache miss the torrent manager is queried exactly when the direct
scraper lookup returned an empty list, and a non-empty direct result is
returned as is (and a cache hit queries nothing) — but the Express
route `/stream/:type/:id.json` of part_005 queries the torrent manager
unconditionally, concatenating both contributions. -/
theorem claimC1_fallback_iff_primary_empty {α : Type}
    (c direct torrent scraped : List α) :
    ((defineStreamHandler none direct torrent).torrentsQueried = direct.isEmpty) ∧
    (direct ≠ [] → (defineStreamHandler none direct torrent).streams = direct) ∧
    ((defineStreamHandler (some c) direct torrent).torrentsQueried = false) ∧
    ((expressStreamRoute scraped torrent).torrentsQueried = true) := by
  refine ⟨?_, ?_, rfl, rfl⟩
  · simp only [defineStreamHandler, List.nil_append]
    rcases direct with _ | ⟨d, ds⟩ <;> simp
  · intro h
    simp only [defineStreamHandler, List.nil_append]
    rcases direct with _ | ⟨d, ds⟩ <;> simp_all

/-- C1 counterexample: a stream request served by the Express stream
route with a non-empty primary (scraped) result still queries the
torrent source manager, where the claim requires that no torrent source
be queried. -/
theorem claimC1_counterexample :
    (expressStreamRoute [sampleStream] []).torrentsQueried = true ∧
      ([sampleStream] : List StreamRecord) ≠ [] := by
  constructor
  · rfl
  · simp

/-- C1 witness: the amended theorem at a non-empty direct result. -/
theorem claimC1_witness :
    (defineStreamHandler (α := StreamRecord) none [sampleStream] []).streams
      = [sampleStream] :=
  (claimC1_fallback_iff_primary_empty [] [sampleStream] [] []).2.1 (by simp)

/-- C5 (amended): a throwing adapter is caught at its own call boundary
and downgraded to an empty contribution, so the fan-out (for `search`
and for `getPopular` alike) returns exactly what the remaining adapters
would produce without it; no raw error reaches the caller (both
operations are total functions into plain lists).  After the shared
merge/dedup step, a record of a healthy adapter can still be collapsed
into a colliding record of another healthy adapter, so the output need
not contain every individual record the other adapters returned. -/
theorem claimC5_adapter_isolation (pre suf : List Scraper) (f : Scraper)
    (q ty : Str) (g : Option Str)
    (hs : f.search q ty = .error ()) (hp : f.getPopular ty g = .error ()) :
    managerSearch (pre ++ f :: suf) q ty = managerSearch (pre ++ suf) q ty ∧
    managerGetPopular (pre ++ f :: suf) ty g =
      managerGetPopular (pre ++ suf) ty g := by
  have hsc : searchContribution q ty f = [] := by
    simp [searchContribution, hs]
  have hpc : popularContribution ty g f = [] := by
    simp [popularContribution, hp]
  constructor
  · unfold managerSearch getEnabledScrapers
    by_cases he : f.enabled
    · simp [List.filter_append, List.filter_cons, he, hsc]
    · simp [List.filter_append, List.filter_cons, he]
  · unfold managerGetPopular getEnabledScrapers
    by_cases he : f.enabled
    · simp [List.filter_append, List.filter_cons, he, hpc]
    · simp [List.filter_append, List.filter_cons, he]

/-- C5 counterexample: with three enabled adapters of which one throws,
the healthy adapter `scrG3` returns a record, yet the combined
(deduplicated) result does not contain it — its collision key matches
`scrG2`'s record, which is kept — so the combined result does not
contain every record the other adapters returned. -/
theorem claimC5_counterexample :
    managerSearch [scrG2, scrG3, scrFail] ("q".data) ("movie".data)
        = [{ recG2 with source := some ("G2".data) }] ∧
      searchContribution ("q".data) ("movie".data) scrG3
        = [{ recG3 with source := some ("G3".data) }] ∧
      { recG3 with source := some ("G3".data) }
        ∉ managerSearch [scrG2, scrG3, scrFail] ("q".data) ("movie".data) := by
  refine ⟨by decide, by decide, by decide⟩

/-- C5 witness: the amended theorem applied to the three concrete
adapters, with the throwing adapter last. -/
theorem claimC5_witness :
    managerSearch [scrG2, scrG3, scrFail] ("q".data) ("movie".data)
        = managerSearch [scrG2, scrG3] ("q".data) ("movie".data) ∧
      managerGetPopular [scrG2, scrG3, scrFail] ("movie".data) none
        = managerGetPopular [scrG2, scrG3] ("movie".data) none :=
  claimC5_adapter_isolation [scrG2, scrG3] [] scrFail ("q".data) ("movie".data)
    none rfl rfl

theorem mem_insertLe {α : Type} (le : α → α → Bool) (x a : α) (l : List α) :
    a ∈ insertLe le x l ↔ a = x ∨ a ∈ l := by
  induction l with
  | nil => simp [insertLe]
  | cons y ys ih =>
      unfold insertLe
      by_cases h : le x y = true
      · rw [if_pos h]
        simp only [List.mem_cons]
      · rw [if_neg h]
        simp only [List.mem_cons, ih]
        tauto

theorem mem_jsSort {α : Type} (le : α → α → Bool) (a : α) (l : List α) :
    a ∈ jsSort le l ↔ a ∈ l := by
  induction l with
  | nil => simp [jsSort]
  | cons x xs ih =>
      unfold jsSort
      rw [mem_insertLe, ih]
      simp [List.mem_cons]

theorem insertLe_pairwise {α : Type} {le : α → α → Bool} {R : α → α → Prop}
    {P : α → Prop}
    (hle : ∀ a b, P a → P b → (le a b = true → R a b) ∧ (le a b = false → R b a))
    (htrans : ∀ {a b c}, P a → P b → P c → R a b → R b c → R a c)
    {x : α} (hx : P x) {l : List α} (hP : ∀ y ∈ l, P y) (hp : l.Pairwise R) :
    (insertLe le x l).Pairwise R := by
  induction l with
  | nil => simp [insertLe]
  | cons y ys ih =>
      have hPy : P y := hP y (List.mem_cons_self y ys)
      have hPys : ∀ z ∈ ys, P z := fun z hz => hP z (List.mem_cons_of_mem y hz)
      rw [List.pairwise_cons] at hp
      unfold insertLe
      by_cases h : le x y = true
      · rw [if_pos h]
        rw [List.pairwise_cons]
        refine ⟨?_, List.pairwise_cons.mpr hp⟩
        intro z hz
        rcases List.mem_cons.mp hz with rfl | hz'
        · exact (hle x z hx hPy).1 h
        · exact htrans hx hPy (hPys z hz') ((hle x y hx hPy).1 h) (hp.1 z hz')
      · rw [if_neg h]
        rw [List.pairwise_cons]
        refine ⟨?_, ih hPys hp.2⟩
        intro z hz
        rcases (mem_insertLe le x z ys).mp hz with rfl | hz'
        · exact (hle z y hx hPy).2 (Bool.not_eq_true _ ▸ h)
        · exact hp.1 z hz'

theorem jsSort_pairwise {α : Type} {le : α → α → Bool} {R : α → α → Prop}
    {P : α → Prop}
    (hle : ∀ a b, P a → P b → (le a b = true → R a b) ∧ (le a b = false → R b a))
    (htrans : ∀ {a b c}, P a → P b → P c → R a b → R b c → R a c)
    {l : List α} (hP : ∀ y ∈ l, P y) : (jsSort le l).Pairwise R := by
  induction l with
  | nil => simp [jsSort]
  | cons x xs ih =>
      unfold jsSort
      exact insertLe_pairwise hle htrans (hP x (List.mem_cons_self x xs))
        (fun y hy => hP y (List.mem_cons_of_mem x ((mem_jsSort le y xs).mp hy)))
        (ih (fun y hy => hP y (List.mem_cons_of_mem x hy)))

theorem insertLe_chain {α : Type} {le : α → α → Bool}
    (hflip : ∀ a b, le a b = false → le b a = true) (x : α) :
    ∀ {l : List α}, l.Chain' (fun a b => le a b = true) →
      (insertLe le x l).Chain' (fun a b => le a b = true) := by
  intro l
  induction l with
  | nil => intro _; simp [insertLe]
  | cons y ys ih =>
      intro hc
      unfold insertLe
      by_cases h : le x y = true
      · rw [if_pos h]
        exact List.chain'_cons.mpr ⟨h, hc⟩
      · rw [if_neg h]
        have hyx : le y x = true := hflip x y (Bool.not_eq_true _ ▸ h)
        have ihc := ih hc.tail
        cases ys with
        | nil => exact List.chain'_cons.mpr ⟨hyx, List.chain'_singleton x⟩
        | cons z zs =>
            by_cases h2 : le x z = true
            · rw [show insertLe le x (z :: zs) = x :: z :: zs from by
                simp only [insertLe, if_pos h2]] at ihc ⊢
              exact List.chain'_cons.mpr ⟨hyx, ihc⟩
            · rw [show insertLe le x (z :: zs) = z :: insertLe le x zs from by
                simp only [insertLe, if_neg h2]] at ihc ⊢
              exact List.chain'_cons.mpr ⟨(List.chain'_cons.mp hc).1, ihc⟩

theorem jsSort_chain {α : Type} {le : α → α → Bool}
    (hflip : ∀ a b, le a b = false → le b a = true) (l : List α) :
    (jsSort le l).Chain' (fun a b => le a b = true) := by
  induction l with
  | nil => simp [jsSort]
  | cons x xs ih => exact insertLe_chain hflip x ih

theorem jsSort_fixed {α : Type} {le : α → α → Bool} {l : List α}
    (hc : l.Chain' (fun a b => le a b = true)) : jsSort le l = l := by
  induction l with
  | nil => rfl
  | cons x xs ih =>
      unfold jsSort
      rw [ih hc.tail]
      cases xs with
      | nil => rfl
      | cons y ys =>
          unfold insertLe
          rw [if_pos (List.chain'_cons.mp hc).1]

theorem jsSort_idem {α : Type} {le : α → α → Bool}
    (hflip : ∀ a b, le a b = false → le b a = true) (l : List α) :
    jsSort le (jsSort le l) = jsSort le l :=
  jsSort_fixed (jsSort_chain hflip l)

/-- C6 (amended): the torrent ranking caps its output at 10; seeder
count descending governs the order whenever both compared candidates
have a non-zero seeder count, and the quality-tier table is consulted
only when at least one seeder count is zero — it is not a secondary key
breaking ties between equal non-zero seeder counts; the claim's
example (50 seeders / 720p before 10 seeders / 1080p) holds. -/
theorem claimC6_torrent_rank :
    (∀ l : List TorrentStream, (rankAndCap l).length ≤ 10) ∧
    (∀ l : List TorrentStream, (∀ x ∈ l, x.seeders ≠ 0) →
      (rankAndCap l).Pairwise (fun a b => b.seeders ≤ a.seeders)) ∧
    (∀ a b : TorrentStream, a.seeders = 0 ∨ b.seeders = 0 →
      qualityOrd a.quality < qualityOrd b.quality → rankAndCap [a, b] = [b, a]) ∧
    rankAndCap [tq "B" "1080p" 10, tq "A" "720p" 50]
      = [tq "A" "720p" 50, tq "B" "1080p" 10] := by
  refine ⟨?_, ?_, ?_, by decide⟩
  · intro l
    unfold rankAndCap
    simp only [List.length_take]
    omega
  · intro l hl
    unfold rankAndCap
    refine List.Pairwise.sublist (List.take_sublist _ _) ?_
    refine jsSort_pairwise (P := fun x => x.seeders ≠ 0) ?_ ?_ hl
    · intro a b ha hb
      have ha' : (a.seeders != 0) = true := by simpa using ha
      have hb' : (b.seeders != 0) = true := by simpa using hb
      constructor
      · intro h
        have h' : torrentCmp a b ≤ 0 := of_decide_eq_true h
        simp only [torrentCmp, ha', hb', Bool.and_self, if_pos] at h'
        omega
      · intro h
        have h' : ¬(torrentCmp a b ≤ 0) := of_decide_eq_false h
        simp only [torrentCmp, ha', hb', Bool.and_self, if_pos] at h'
        omega
    · intro a b c _ _ _ h1 h2
      omega
  · intro a b h hq
    have hcond : (a.seeders != 0 && b.seeders != 0) = false := by
      rcases h with h | h <;> simp [h]
    have hle : decide (torrentCmp a b ≤ 0) = false := by
      apply decide_eq_false
      unfold torrentCmp
      rw [if_neg (by simp [hcond])]
      omega
    simp [rankAndCap, jsSort, insertLe, hle]

/-- C6 counterexample: two candidates with equal non-zero seeder counts
and strictly increasing quality tier keep their input order — the
comparator returns 0 without consulting the quality table, so quality
is not a secondary sort key as claimed. -/
theorem claimC6_counterexample :
    rankAndCap [tq "A" "480p" 5, tq "B" "2160p" 5]
        = [tq "A" "480p" 5, tq "B" "2160p" 5] ∧
      (tq "A" "480p" 5).seeders = (tq "B" "2160p" 5).seeders ∧
      qualityOrd (tq "A" "480p" 5).quality
        < qualityOrd (tq "B" "2160p" 5).quality ∧
      ([tq "A" "480p" 5, tq "B" "2160p" 5] : List TorrentStream)
        ≠ [tq "B" "2160p" 5, tq "A" "480p" 5] := by
  decide

/-- C6 witness: the amended theorem's conditional parts applied to
concrete candidate lists. -/
theorem claimC6_witness :
    (rankAndCap [tq "C" "480p" 9, tq "D" "720p" 4]).Pairwise
        (fun a b => b.seeders ≤ a.seeders) ∧
      rankAndCap [tq "X" "480p" 0, tq "Y" "2160p" 3]
        = [tq "Y" "2160p" 3, tq "X" "480p" 0] :=
  ⟨claimC6_torrent_rank.2.1 _ (by decide),
   claimC6_torrent_rank.2.2.1 _ _ (Or.inl rfl) (by decide)⟩

theorem popularCmp_neg (a b : MetaRecord) : popularCmp b a = -popularCmp a b := by
  unfold popularCmp
  cases h1 : truthyNum a.imdbRating <;> cases h2 : truthyNum b.imdbRating <;>
    cases h3 : truthyNat a.year <;> cases h4 : truthyNat b.year <;>
      simp [h1, h2, h3, h4]

theorem popularLe_flip (a b : MetaRecord)
    (h : decide (popularCmp a b ≤ 0) = false) :
    decide (popularCmp b a ≤ 0) = true := by
  have h' : ¬(popularCmp a b ≤ 0) := of_decide_eq_false h
  apply decide_eq_true
  rw [popularCmp_neg]
  linarith

/-- C7 (amended): the `getPopular` comparator compares by rating
descending only when both records carry a truthy rating, else by year
descending only when both carry a truthy year, and otherwise leaves the
relative order unchanged — records with a missing rating are not pushed
after records with one.  On lists where all records are rated the
output is rating-descending; on lists where no record is rated and all
have years it is year-descending; and re-ranking an already-ranked list
is a no-op. -/
theorem claimC7_popular_rank :
    (∀ l : List MetaRecord, (∀ x ∈ l, truthyNum x.imdbRating = true) →
      (rankPopular l).Pairwise
        (fun a b => ratingVal b.imdbRating ≤ ratingVal a.imdbRating)) ∧
    (∀ l : List MetaRecord,
      (∀ x ∈ l, truthyNum x.imdbRating = false ∧ truthyNat x.year = true) →
      (rankPopular l).Pairwise (fun a b => b.year.getD 0 ≤ a.year.getD 0)) ∧
    (∀ l : List MetaRecord, rankPopular (rankPopular l) = rankPopular l) := by
  refine ⟨?_, ?_, ?_⟩
  · intro l hl
    unfold rankPopular
    refine jsSort_pairwise (P := fun x => truthyNum x.imdbRating = true) ?_ ?_ hl
    · intro a b ha hb
      constructor
      · intro h
        have h' : popularCmp a b ≤ 0 := of_decide_eq_true h
        unfold popularCmp at h'
        rw [if_pos (by simp [ha, hb])] at h'
        linarith
      · intro h
        have h' : ¬(popularCmp a b ≤ 0) := of_decide_eq_false h
        unfold popularCmp at h'
        rw [if_pos (by simp [ha, hb])] at h'
        linarith
    · intro a b c _ _ _ h1 h2
      linarith
  · intro l hl
    unfold rankPopular
    refine jsSort_pairwise
      (P := fun x => truthyNum x.imdbRating = false ∧ truthyNat x.year = true)
      ?_ ?_ hl
    · intro a b ha hb
      constructor
      · intro h
        have h' : popularCmp a b ≤ 0 := of_decide_eq_true h
        unfold popularCmp at h'
        rw [if_neg (by simp [ha.1]), if_pos (by simp [ha.2, hb.2])] at h'
        have hq : ((b.year.getD 0 : Nat) : ℚ) ≤ ((a.year.getD 0 : Nat) : ℚ) := by
          linarith
        exact_mod_cast hq
      · intro h
        have h' : ¬(popularCmp a b ≤ 0) := of_decide_eq_false h
        unfold popularCmp at h'
        rw [if_neg (by simp [ha.1]), if_pos (by simp [ha.2, hb.2])] at h'
        have hq : ((a.year.getD 0 : Nat) : ℚ) ≤ ((b.year.getD 0 : Nat) : ℚ) := by
          linarith
        exact_mod_cast hq
    · intro a b c _ _ _ h1 h2
      omega
  · intro l
    exact jsSort_idem popularLe_flip l

/-- C7 counterexample: a popular listing that places a record with no
rating before a record with a rating — the comparator returns 0 for the
pair (not both rated, not both with years), so the missing-rating
record is not moved after the rated one, as the claim requires. -/
theorem claimC7_counterexample :
    managerGetPopular [scrPop] ("movie".data) none
        = [{ popNoRating with source := some ("Pop".data) },
           { popRated with source := some ("Pop".data) }] ∧
      truthyNum popNoRating.imdbRating = false ∧
      truthyNum popRated.imdbRating = true := by
  decide

/-- C7 witness: the amended theorem's parts at concrete listings. -/
theorem claimC7_witness :
    (rankPopular [popRated]).Pairwise
        (fun a b => ratingVal b.imdbRating ≤ ratingVal a.imdbRating) ∧
      (rankPopular [recG2, recG3]).Pairwise
        (fun a b => b.year.getD 0 ≤ a.year.getD 0) ∧
      rankPopular (rankPopular [popNoRating, popRated])
        = rankPopular [popNoRating, popRated] :=
  ⟨claimC7_popular_rank.1 [popRated] (by decide),
   claimC7_popular_rank.2.1 [recG2, recG3] (by decide),
   claimC7_popular_rank.2.2 [popNoRating, popRated]⟩

theorem shouldReplace_iff (A B : MetaRecord) :
    shouldReplace A B = true ↔
      ((truthyStr A.poster = false ∧ truthyStr B.poster = true) ∨
       (truthyNum A.imdbRating = false ∧ truthyNum B.imdbRating = true) ∨
       ratingVal B.imdbRating > ratingVal A.imdbRating ∨
       (truthyStr B.description = true ∧
         (B.description.getD []).length > (A.description.getD []).length)) := by
  unfold shouldReplace jsRatingGT
  simp only [Bool.or_eq_true, Bool.and_eq_true, Bool.not_eq_true',
    decide_eq_true_eq, gt_iff_lt]
  tauto

/-- C4: for a colliding pair (equal dedup key: normalized title, year —
`unknown` when absent or 0 — and kind), the merge keeps the incumbent
`A` unless the challenger `B` satisfies one of the precedence rules —
incumbent lacks a (truthy) poster and challenger has one; incumbent
lacks a (truthy) rating and challenger has one; challenger's rating is
numerically higher (null coercing to 0); challenger's non-empty
description is longer — in which case `B` replaces `A` wholesale; in
particular the scenario pair (A: rating 8.2 and poster; B: neither)
merges to `[A]`. -/
theorem claimC4_merge_precedence (A B : MetaRecord)
    (h : dedupKey A = dedupKey B) :
    (deduplicateResults [A, B] =
      if (truthyStr A.poster = false ∧ truthyStr B.poster = true) ∨
         (truthyNum A.imdbRating = false ∧ truthyNum B.imdbRating = true) ∨
         ratingVal B.imdbRating > ratingVal A.imdbRating ∨
         (truthyStr B.description = true ∧
           (B.description.getD []).length > (A.description.getD []).length)
      then [B] else [A]) ∧
    deduplicateResults [movieXA, movieXB] = [movieXA] := by
  refine ⟨?_, by decide⟩
  have hstep : deduplicateResults [A, B] =
      if shouldReplace A B then [B] else [A] := by
    unfold deduplicateResults
    simp [dedupStep, h, List.findIdx?]
  rw [hstep]
  by_cases hc : shouldReplace A B = true
  · rw [if_pos hc, if_pos ((shouldReplace_iff A B).mp hc)]
  · rw [if_neg hc, if_neg (fun hp => hc ((shouldReplace_iff A B).mpr hp))]

/-- C4 witness: the pair theorem applied to the scenario records, whose
dedup keys coincide. -/
theorem claimC4_witness :
    deduplicateResults [movieXA, movieXB] =
      if (truthyStr movieXA.poster = false ∧ truthyStr movieXB.poster = true) ∨
         (truthyNum movieXA.imdbRating = false ∧
           truthyNum movieXB.imdbRating = true) ∨
         ratingVal movieXB.imdbRating > ratingVal movieXA.imdbRating ∨
         (truthyStr movieXB.description = true ∧
           (movieXB.description.getD []).length >
             (movieXA.description.getD []).length)
      then [movieXB] else [movieXA] :=
  (claimC4_merge_precedence movieXA movieXB (by decide)).1

theorem b64Val_b64Char : ∀ n, n < 64 → b64Val (b64Char n) = some n := by
  decide

theorem b64Val_padding : b64Val '=' = none := by
  decide

theorem b64Char_ne_colon (n : Nat) : b64Char n ≠ ':' := by
  by_cases h : n < 64
  · have hall : ∀ m, m < 64 → b64Char m ≠ ':' := by decide
    exact hall n h
  · unfold b64Char
    rw [List.getD_eq_default _ _
      (by rw [show b64Alphabet.length = 64 from by decide]; omega)]
    decide

theorem b64Encode_mem_ne_colon (bs : List Nat) :
    ∀ c ∈ b64Encode bs, c ≠ ':' := by
  induction bs using b64Encode.induct with
  | case1 =>
      intro c hc
      simp [b64Encode] at hc
  | case2 b1 =>
      intro c hc
      simp only [b64Encode, List.mem_cons, List.not_mem_nil, or_false] at hc
      rcases hc with rfl | rfl | rfl | rfl
      · exact b64Char_ne_colon _
      · exact b64Char_ne_colon _
      · decide
      · decide
  | case3 b1 b2 =>
      intro c hc
      simp only [b64Encode, List.mem_cons, List.not_mem_nil, or_false] at hc
      rcases hc with rfl | rfl | rfl | rfl
      · exact b64Char_ne_colon _
      · exact b64Char_ne_colon _
      · exact b64Char_ne_colon _
      · decide
  | case4 b1 b2 b3 rest ih =>
      intro c hc
      simp only [b64Encode, List.mem_cons] at hc
      rcases hc with rfl | rfl | rfl | rfl | h
      · exact b64Char_ne_colon _
      · exact b64Char_ne_colon _
      · exact b64Char_ne_colon _
      · exact b64Char_ne_colon _
      · exact ih c h

theorem b64Encode_length (bs : List Nat) :
    (b64Encode bs).length = 4 * ((bs.length + 2) / 3) := by
  induction bs using b64Encode.induct <;>
    · simp [b64Encode, *]
      try omega

theorem b64_roundtrip (bs : List Nat) (h : ∀ b ∈ bs, b < 256) :
    b64Decode (b64Encode bs) = bs := by
  unfold b64Decode
  induction bs using b64Encode.induct with
  | case1 => rfl
  | case2 b1 =>
      have hb1 : b1 < 256 := h b1 (by simp)
      rw [show b64Encode [b1] = [b64Char (b1 / 4), b64Char (b1 % 4 * 16), '=', '=']
            from rfl,
        List.filterMap_cons_some (b64Val_b64Char _ (by omega)),
        List.filterMap_cons_some (b64Val_b64Char _ (by omega)),
        List.filterMap_cons_none b64Val_padding,
        List.filterMap_cons_none b64Val_padding,
        List.filterMap_nil]
      show [b1 / 4 * 4 + b1 % 4 * 16 / 16] = [b1]
      congr 1
      omega
  | case3 b1 b2 =>
      have hb1 : b1 < 256 := h b1 (by simp)
      have hb2 : b2 < 256 := h b2 (by simp)
      rw [show b64Encode [b1, b2] =
            [b64Char (b1 / 4), b64Char (b1 % 4 * 16 + b2 / 16),
              b64Char (b2 % 16 * 4), '='] from rfl,
        List.filterMap_cons_some (b64Val_b64Char _ (by omega)),
        List.filterMap_cons_some (b64Val_b64Char _ (by omega)),
        List.filterMap_cons_some (b64Val_b64Char _ (by omega)),
        List.filterMap_cons_none b64Val_padding,
        List.filterMap_nil]
      show [_, _] = [b1, b2]
      congr 1
      · omega
      · congr 1
        omega
  | case4 b1 b2 b3 rest ih =>
      have hb1 : b1 < 256 := h b1 (by simp)
      have hb2 : b2 < 256 := h b2 (by simp)
      have hb3 : b3 < 256 := h b3 (by simp)
      have hrest : ∀ b ∈ rest, b < 256 := fun b hb => h b (by simp [hb])
      rw [show b64Encode (b1 :: b2 :: b3 :: rest) =
            b64Char (b1 / 4) :: b64Char (b1 % 4 * 16 + b2 / 16) ::
              b64Char (b2 % 16 * 4 + b3 / 64) :: b64Char (b3 % 64) ::
              b64Encode rest from rfl,
        List.filterMap_cons_some (b64Val_b64Char _ (by omega)),
        List.filterMap_cons_some (b64Val_b64Char _ (by omega)),
        List.filterMap_cons_some (b64Val_b64Char _ (by omega)),
        List.filterMap_cons_some (b64Val_b64Char _ (by omega))]
      show b64DigitsToBytes (_ :: _ :: _ :: _ :: _) = b1 :: b2 :: b3 :: rest
      rw [b64DigitsToBytes]
      rw [ih hrest]
      congr 1
      · omega
      · congr 1
        · omega
        · congr 1
          omega

theorem splitOnSep_no_sep (sep : Char) (xs : Str) (h : sep ∉ xs) :
    splitOnSep sep xs = [xs] := by
  induction xs with
  | nil => rfl
  | cons c cs ih =>
      have hc : ¬(c = sep) := fun he => h (he ▸ List.mem_cons_self c cs)
      have hcs : sep ∉ cs := fun hm => h (List.mem_cons_of_mem c hm)
      unfold splitOnSep
      rw [if_neg hc, ih hcs]

theorem splitOnSep_append (sep : Char) (xs ys : Str) (h : sep ∉ xs) :
    splitOnSep sep (xs ++ sep :: ys) = xs :: splitOnSep sep ys := by
  induction xs with
  | nil =>
      show splitOnSep sep (sep :: ys) = [] :: splitOnSep sep ys
      simp [splitOnSep]
  | cons c cs ih =>
      have hc : ¬(c = sep) := fun he => h (he ▸ List.mem_cons_self c cs)
      have hcs : sep ∉ cs := fun hm => h (List.mem_cons_of_mem c hm)
      show splitOnSep sep (c :: (cs ++ sep :: ys)) = _
      simp only [splitOnSep]
      rw [ih hcs, if_neg hc]

theorem generateId_split (u : Str) :
    splitOnSep ':' (generateId pstreamName u) =
      [("scraped".data), ("pstream".data), (b64Encode (strToBytes u)).take 16] := by
  have h1 : generateId pstreamName u =
      "scraped".data ++ ':' ::
        ("pstream".data ++ ':' :: (b64Encode (strToBytes u)).take 16) := by
    unfold generateId
    rw [show jsToLowerCase pstreamName = "pstream".data from by decide]
    rfl
  have hcolon : (':' : Char) ∉ (b64Encode (strToBytes u)).take 16 := by
    intro hmem
    exact b64Encode_mem_ne_colon (strToBytes u) ':'
      (List.take_subset _ _ hmem) rfl
  rw [h1, splitOnSep_append _ _ _ (by decide),
    splitOnSep_append _ _ _ (by decide), splitOnSep_no_sep _ _ hcolon]

/-- C3 (amended): the generated content id routes back to the producing
adapter for every source URL — `getScraperFromId(generateId(u))`
resolves to the registered Pstream scraper — but the id only encodes
the first 16 base64 digits of the URL (`.slice(0, 16)`), so
`getUrlFromId(generateId(u))` recovers `u` exactly when `u` is at most
12 bytes long; for longer URLs only a 12-byte prefix is recovered, and
a later detail/stream lookup cannot reconstruct the full URL. -/
theorem claimC3_id_roundtrip (u : Str) (hascii : ∀ c ∈ u, c.toNat < 128) :
    (∀ ps : Scraper, ps.name = pstreamName →
      getScraperFromId [ps] (generateId pstreamName u) = some ps) ∧
    (u.length ≤ 12 → getUrlFromId (generateId pstreamName u) = some u) := by
  constructor
  · intro ps hname
    unfold getScraperFromId
    rw [generateId_split]
    rw [if_neg (by simp)]
    show List.find? _ [ps] = some ps
    rw [List.find?_cons_of_pos]
    rw [hname]
    rw [show jsToLowerCase pstreamName = "pstream".data from by decide]
    exact beq_self_eq_true _
  · intro hlen
    unfold getUrlFromId
    rw [generateId_split]
    show some (bytesToStr (b64Decode ((b64Encode (strToBytes u)).take 16))) = _
    have htake : (b64Encode (strToBytes u)).take 16 = b64Encode (strToBytes u) := by
      apply List.take_of_length_le
      rw [b64Encode_length]
      have : (strToBytes u).length = u.length := List.length_map _ _
      omega
    rw [htake, b64_roundtrip _ (fun b hb => ?_)]
    · unfold bytesToStr strToBytes
      rw [List.map_map, show Char.ofNat ∘ Char.toNat = id from funext Char.ofNat_toNat,
        List.map_id]
    · rcases List.mem_map.mp hb with ⟨c, hc, rfl⟩
      have := hascii c hc
      omega

/-- C3 counterexample: a 27-byte source URL; decoding the generated id
recovers only the first 12 bytes, not the original URL, so
`getUrlFromId(generateId(u))` does not recover `u`. -/
theorem claimC3_counterexample :
    getUrlFromId (generateId pstreamName ("https://pstream.org/movie/1".data))
        = some ("https://pstr".data) ∧
      ("https://pstr".data : Str) ≠ ("https://pstream.org/movie/1".data) := by
  constructor
  · rfl
  · decide

/-- C3 witness: the amended theorem at a 5-byte URL, with the Pstream
scraper registered. -/
theorem claimC3_witness :
    getScraperFromId [pstreamRegistered] (generateId pstreamName ("/m/ab".data))
        = some pstreamRegistered ∧
      getUrlFromId (generateId pstreamName ("/m/ab".data)) = some ("/m/ab".data) :=
  ⟨(claimC3_id_roundtrip ("/m/ab".data) (by decide)).1 pstreamRegistered rfl,
   (claimC3_id_roundtrip ("/m/ab".data) (by decide)).2 (by decide)⟩

namespace CacheManager

theorem lookupKey_cons_ne {A : Type} (l : List (Str × A)) (k k' : Str) (a : A)
    (h : k' ≠ k) : lookupKey ((k, a) :: l) k' = lookupKey l k' := by
  simp only [lookupKey, List.find?_cons]
  rw [show (((k, a).1 == k') = false) from by simpa using fun he => h he.symm]

theorem lookupKey_removeKey_ne {A : Type} (l : List (Str × A)) (k k' : Str)
    (h : k' ≠ k) : lookupKey (removeKey l k) k' = lookupKey l k' := by
  induction l with
  | nil => rfl
  | cons p l ih =>
      by_cases hp : p.1 = k
      · rw [show removeKey (p :: l) k = removeKey l k from by
          simp [removeKey, List.filter_cons, hp]]
        rw [ih]
        rw [show lookupKey (p :: l) k' = lookupKey l k' from by
          simp only [lookupKey, List.find?_cons]
          rw [show ((p.1 == k') = false) from by
            simp [hp]; exact fun he => h (he ▸ hp ▸ rfl)]]
      · rw [show removeKey (p :: l) k = p :: removeKey l k from by
          simp [removeKey, List.filter_cons, hp]]
        simp only [lookupKey, List.find?_cons]
        cases hpk : (p.1 == k') with
        | true => rfl
        | false =>
            show lookupKey (removeKey l k) k' = lookupKey l k'
            exact ih

theorem mem_of_lookupKey {A : Type} (l : List (Str × A)) (k : Str) (a : A)
    (h : lookupKey l k = some a) : (k, a) ∈ l := by
  unfold lookupKey at h
  cases hf : l.find? (fun p => p.1 == k) with
  | none => rw [hf] at h; cases h
  | some p =>
      rw [hf] at h
      have hm := List.mem_of_find?_eq_some hf
      have hp := List.find?_some hf
      have h1 : p.1 = k := by simpa using hp
      have h2 : p.2 = a := by cases h; rfl
      have : p = (k, a) := by
        cases p
        simp_all
      exact this ▸ hm

/-- Keys of bindings that survive `removeKey` differ from the removed key. -/
theorem ne_of_mem_removeKey {A : Type} {l : List (Str × A)} {k : Str} {p}
    (h : p ∈ removeKey l k) : p ∈ l ∧ p.1 ≠ k := by
  unfold removeKey at h
  have := List.of_mem_filter h
  exact ⟨List.mem_of_mem_filter h, by simpa using this⟩

theorem set_timers_eq {V : Type} (s : CacheManager V) (now : Nat) (k : Str)
    (v : V) (ttl : Nat) :
    (s.set now k v ttl).timers = (k, s.nextHandle) :: removeKey s.timers k := by
  unfold set clearTimeout
  cases lookupKey s.timers k <;> rfl

theorem set_nextHandle_eq {V : Type} (s : CacheManager V) (now : Nat) (k : Str)
    (v : V) (ttl : Nat) :
    (s.set now k v ttl).nextHandle = s.nextHandle + 1 := by
  unfold set clearTimeout
  cases lookupKey s.timers k <;> rfl

theorem set_live_eq {V : Type} (s : CacheManager V) (now : Nat) (k : Str)
    (v : V) (ttl : Nat) :
    (s.set now k v ttl).live =
      (s.nextHandle, k, now + ttl * 1000) ::
        (match lookupKey s.timers k with
         | some h0 => s.live.filter (fun t => t.1 != h0)
         | none => s.live) := by
  unfold set clearTimeout
  cases lookupKey s.timers k <;> rfl

/-- A live timeout entry of a well-formed state whose registered timer
for its key is about to be cleared (or whose key has no registered
timer) cannot carry the cleared key unless it is the cleared timer
itself: live entries for key `k` carry exactly the registered handle. -/
theorem live_key_handle {V : Type} {s : CacheManager V} (hwf : s.wf)
    {e : Nat × Str × Nat} (he : e ∈ s.live) :
    lookupKey s.timers e.2.1 = some e.1 :=
  hwf.1 e he

theorem wf_clearTimeout {V : Type} {s : CacheManager V} (hwf : s.wf) (h : Nat) :
    (s.clearTimeout h).wf := by
  obtain ⟨w1, w2, w3, w4⟩ := hwf
  refine ⟨?_, ?_, ?_, w4⟩
  · intro e he
    exact w1 e (List.mem_of_mem_filter he)
  · exact ((List.filter_sublist _).map _).nodup w2
  · intro e he
    exact w3 e (List.mem_of_mem_filter he)

theorem delete_live_eq {V : Type} (s : CacheManager V) (k : Str) :
    (s.delete k).live =
      match lookupKey s.timers k with
      | some h0 => s.live.filter (fun t : Nat × Str × Nat => t.1 != h0)
      | none => s.live := by
  simp only [delete, clearTimeout]
  cases lookupKey s.timers k <;> rfl

theorem delete_timers_eq {V : Type} (s : CacheManager V) (k : Str) :
    (s.delete k).timers =
      match lookupKey s.timers k with
      | some _ => removeKey s.timers k
      | none => s.timers := by
  simp only [delete, clearTimeout]
  cases lookupKey s.timers k <;> rfl

theorem delete_nextHandle_eq {V : Type} (s : CacheManager V) (k : Str) :
    (s.delete k).nextHandle = s.nextHandle := by
  simp only [delete, clearTimeout]
  cases lookupKey s.timers k <;> rfl

theorem wf_delete {V : Type} {s : CacheManager V} (hwf : s.wf) (k : Str) :
    (s.delete k).wf := by
  obtain ⟨w1, w2, w3, w4⟩ := hwf
  refine ⟨?_, ?_, ?_, ?_⟩
  · intro e he
    rw [delete_live_eq] at he
    rw [delete_timers_eq]
    cases hl : lookupKey s.timers k with
    | none =>
        rw [hl] at he
        exact w1 e he
    | some h0 =>
        rw [hl] at he
        have he' := List.mem_of_mem_filter he
        have hne : e.1 ≠ h0 := by simpa using List.of_mem_filter he
        have hkey : e.2.1 ≠ k := by
          intro hk
          exact hne (by have := w1 e he'; rw [hk, hl] at this; cases this; rfl)
        rw [lookupKey_removeKey_ne _ _ _ hkey]
        exact w1 e he'
  · rw [delete_live_eq]
    cases hl : lookupKey s.timers k with
    | none => exact w2
    | some h0 => exact ((List.filter_sublist _).map _).nodup w2
  · intro e he
    rw [delete_live_eq] at he
    rw [delete_nextHandle_eq]
    cases hl : lookupKey s.timers k with
    | none =>
        rw [hl] at he
        exact w3 e he
    | some h0 =>
        rw [hl] at he
        exact w3 e (List.mem_of_mem_filter he)
  · intro p hp
    rw [delete_timers_eq] at hp
    rw [delete_nextHandle_eq]
    cases hl : lookupKey s.timers k with
    | none =>
        rw [hl] at hp
        exact w4 p hp
    | some h0 =>
        rw [hl] at hp
        exact w4 p (ne_of_mem_removeKey hp).1

theorem wf_set {V : Type} {s : CacheManager V} (hwf : s.wf) (now : Nat)
    (k : Str) (v : V) (ttl : Nat) : (s.set now k v ttl).wf := by
  obtain ⟨w1, w2, w3, w4⟩ := hwf
  have hlive := set_live_eq s now k v ttl
  have htimers := set_timers_eq s now k v ttl
  have hnext := set_nextHandle_eq s now k v ttl
  -- the tail of the new live list: old entries, minus any cleared timer
  have htail : ∀ e ∈ (match lookupKey s.timers k with
      | some h0 => s.live.filter (fun t : Nat × Str × Nat => t.1 != h0)
      | none => s.live), e ∈ s.live ∧ e.2.1 ≠ k := by
    cases hl : lookupKey s.timers k with
    | none =>
        intro e he
        refine ⟨he, fun hk => ?_⟩
        have := w1 e he
        rw [hk, hl] at this
        cases this
    | some h0 =>
        intro e he
        have he' := List.mem_of_mem_filter he
        have hne : e.1 ≠ h0 := by simpa using List.of_mem_filter he
        refine ⟨he', fun hk => ?_⟩
        have := w1 e he'
        rw [hk, hl] at this
        cases this
        exact hne rfl
  refine ⟨?_, ?_, ?_, ?_⟩
  · intro e he
    rw [hlive] at he
    rw [htimers]
    rcases List.mem_cons.mp he with rfl | he'
    · exact lookupKey_cons_self _ _ _
    · obtain ⟨hmem, hkey⟩ := htail e he'
      rw [lookupKey_cons_ne _ _ _ _ hkey, lookupKey_removeKey_ne _ _ _ hkey]
      exact w1 e hmem
  · rw [hlive]
    rw [List.map_cons, List.nodup_cons]
    constructor
    · intro hmem
      rcases List.mem_map.mp hmem with ⟨e, he, hfst⟩
      have := w3 e (htail e he).1
      omega
    · cases hl : lookupKey s.timers k with
      | none => exact w2
      | some h0 =>
          simp only [hl]
          exact ((List.filter_sublist _).map _).nodup w2
  · intro e he
    rw [hlive] at he
    rw [hnext]
    rcases List.mem_cons.mp he with rfl | he'
    · omega
    · have := w3 e (htail e he').1
      omega
  · intro p hp
    rw [htimers] at hp
    rw [hnext]
    rcases List.mem_cons.mp hp with rfl | hp'
    · omega
    · have := w4 p (ne_of_mem_removeKey hp').1
      omega

theorem wf_get {V : Type} {s : CacheManager V} (hwf : s.wf) (t : Nat)
    (k : Str) : ((s.get t k).2).wf := by
  unfold get
  cases lookupKey s.cache k with
  | none => exact hwf
  | some e =>
      show (if t > e.expires then ((none : Option V), s.delete k)
        else (some e.value, s)).2.wf
      by_cases h : t > e.expires
      · rw [if_pos h]
        exact wf_delete hwf k
      · rw [if_neg h]
        exact hwf

theorem wf_foldl_delete {V : Type} (ks : List Str) :
    ∀ s : CacheManager V, s.wf →
      (ks.foldl (fun acc k => acc.delete k) s).wf := by
  induction ks with
  | nil => intro s hwf; exact hwf
  | cons k ks ih => intro s hwf; exact ih _ (wf_delete hwf k)

theorem wf_cleanup {V : Type} {s : CacheManager V} (hwf : s.wf) (t : Nat) :
    (s.cleanup t).wf :=
  wf_foldl_delete _ s hwf

theorem wf_fire {V : Type} {s : CacheManager V} (hwf : s.wf) (h : Nat) :
    (s.fire h).wf := by
  unfold fire
  cases s.live.find? (fun t => t.1 == h) with
  | none => exact hwf
  | some e => exact wf_delete (wf_clearTimeout hwf h) e.2.1

theorem wf_empty (V : Type) : (empty V).wf := by
  refine ⟨?_, ?_, ?_, ?_⟩ <;> simp [empty]

theorem wf_run {V : Type} (ops : List (CacheOp V)) : (CacheOp.run ops).wf := by
  unfold CacheOp.run
  have : ∀ (l : List (CacheOp V)) (s : CacheManager V), s.wf →
      (l.foldl CacheOp.apply s).wf := by
    intro l
    induction l with
    | nil => intro s hwf; exact hwf
    | cons op l ih =>
        intro s hwf
        refine ih _ ?_
        cases op with
        | set now k v ttl => exact wf_set hwf now k v ttl
        | get t k => exact wf_get hwf t k
        | del k => exact wf_delete hwf k
        | cleanup t => exact wf_cleanup hwf t
        | fire h => exact wf_fire hwf h
  exact this ops _ (wf_empty V)

theorem live_countP_le_one (live : List (Nat × Str × Nat))
    (tm : List (Str × Nat))
    (h1 : ∀ e ∈ live, lookupKey tm e.2.1 = some e.1)
    (h2 : (live.map (·.1)).Nodup) (k : Str) :
    live.countP (fun e => e.2.1 == k) ≤ 1 := by
  induction live with
  | nil => simp
  | cons e l ih =>
      rw [List.map_cons, List.nodup_cons] at h2
      by_cases hk : (e.2.1 == k) = true
      · have hzero : l.countP (fun e => e.2.1 == k) = 0 := by
          rw [List.countP_eq_zero]
          intro e' he' he'k
          have hk1 : e.2.1 = k := by simpa using hk
          have hk2 : e'.2.1 = k := by simpa using he'k
          have i1 := h1 e (List.mem_cons_self e l)
          have i2 := h1 e' (List.mem_cons_of_mem e he')
          rw [hk1] at i1
          rw [hk2] at i2
          rw [i1] at i2
          exact h2.1 (List.mem_map.mpr ⟨e', he', (Option.some.inj i2).symm⟩)
        rw [List.countP_cons_of_pos (fun e => e.2.1 == k) l hk, hzero]
      · rw [List.countP_cons_of_neg (fun e => e.2.1 == k) l hk]
        exact ih (fun e' he' => h1 e' (List.mem_cons_of_mem e he')) h2.2

end CacheManager

/-- C8: `set(k, v2, ttl2)` replaces the cached value and resets its
expiry to `now + ttl2` (ms: `now + ttl2*1000`); the previously
scheduled timeout for the key is cleared, so after the `set` the only
live timeout for `k` is the fresh one and firing the old handle is a
no-op (it can never remove the new entry); and in every state reachable
from a fresh cache, at most one live expiry timeout exists per key. -/
theorem claimC8_set_resets_single_timer :
    (∀ (V : Type) (ops : List (CacheOp V)) (k : Str),
      ((CacheOp.run ops).live.countP (fun e => e.2.1 == k)) ≤ 1) ∧
    (∀ (V : Type) (s : CacheManager V), s.wf →
      ∀ (now2 : Nat) (k : Str) (v2 : V) (ttl2 : Nat),
      CacheManager.lookupKey (s.set now2 k v2 ttl2).cache k
          = some ⟨v2, now2 + ttl2 * 1000⟩ ∧
      (∀ e ∈ (s.set now2 k v2 ttl2).live, e.2.1 = k →
        e.1 = s.nextHandle ∧ e.2.2 = now2 + ttl2 * 1000) ∧
      (∀ h0, CacheManager.lookupKey s.timers k = some h0 →
        (s.set now2 k v2 ttl2).fire h0 = s.set now2 k v2 ttl2)) := by
  constructor
  · intro V ops k
    have hwf := CacheManager.wf_run ops
    exact CacheManager.live_countP_le_one _ _ hwf.1 hwf.2.1 k
  · intro V s hwf now2 k v2 ttl2
    obtain ⟨w1, w2, w3, w4⟩ := hwf
    have hlive := CacheManager.set_live_eq s now2 k v2 ttl2
    refine ⟨?_, ?_, ?_⟩
    · rw [CacheManager.set_cache_eq, CacheManager.lookupKey_cons_self]
    · intro e he hek
      rw [hlive] at he
      rcases List.mem_cons.mp he with rfl | he'
      · exact ⟨rfl, rfl⟩
      · exfalso
        cases hl : CacheManager.lookupKey s.timers k with
        | none =>
            rw [hl] at he'
            have := w1 e he'
            rw [hek, hl] at this
            cases this
        | some h0 =>
            rw [hl] at he'
            have hmem := List.mem_of_mem_filter he'
            have hne : e.1 ≠ h0 := by simpa using List.of_mem_filter he'
            have := w1 e hmem
            rw [hek, hl] at this
            cases this
            exact hne rfl
    · intro h0 hl
      have hbound : h0 < s.nextHandle :=
        w4 (k, h0) (CacheManager.mem_of_lookupKey _ _ _ hl)
      have hnone : (s.set now2 k v2 ttl2).live.find?
          (fun t => t.1 == h0) = none := by
        rw [List.find?_eq_none]
        intro e he
        rw [hlive] at he
        rcases List.mem_cons.mp he with rfl | he'
        · simp only [beq_iff_eq]
          omega
        · rw [hl] at he'
          have hne : e.1 ≠ h0 := by simpa using List.of_mem_filter he'
          simpa using hne
      unfold CacheManager.fire
      rw [hnone]

/-- C8 witness: two successive `set`s on the same key; the second
leaves the value `3`, expiry 4005 ms, and firing the first `set`'s
timer handle (0) changes nothing. -/
theorem claimC8_witness :
    (CacheManager.lookupKey
        ((((CacheManager.empty Nat).set 0 ("k".data) 1 2).set 5 ("k".data) 3 4).cache)
        ("k".data) = some ⟨3, 5 + 4 * 1000⟩) ∧
      ((((CacheManager.empty Nat).set 0 ("k".data) 1 2).set 5 ("k".data) 3 4).fire 0
        = ((CacheManager.empty Nat).set 0 ("k".data) 1 2).set 5 ("k".data) 3 4) :=
  ⟨(claimC8_set_resets_single_timer.2 Nat
      ((CacheManager.empty Nat).set 0 ("k".data) 1 2)
      (CacheManager.wf_set (CacheManager.wf_empty Nat) 0 ("k".data) 1 2)
      5 ("k".data) 3 4).1,
   (claimC8_set_resets_single_timer.2 Nat
      ((CacheManager.empty Nat).set 0 ("k".data) 1 2)
      (CacheManager.wf_set (CacheManager.wf_empty Nat) 0 ("k".data) 1 2)
      5 ("k".data) 3 4).2.2 0 rfl⟩

end UltimateStream
